import Mathlib

/-!
Verification of the model_analyzer core: the record model, the
`RecordAggregator` (src/model_analyzer/record/record_aggregator.py), the
profiling coordinator `Analyzer._profile` (src/model_analyzer/analyzer.py)
and `PerfAnalyzerConfig` (src/model_analyzer/perf_analyzer/perf_config.py),
as a shallow embedding in Lean 4.

Python dictionaries are embedded as association lists preserving key
insertion order (one binding per key).  `RecordAggregator._records` is a
`collections.defaultdict(list)`: reading a missing key *creates* an empty
bucket and mutates the dictionary, so every operation that performs such a
read is modelled as returning the post-state of the aggregator alongside
its result.  Raised exceptions are modelled with `Except`, tagged by raise
site.  Record values (`Record.value()`, a Python float) are embedded as
rationals; the claims under study only compare and take maxima of values,
for which any linear order is faithful.
-/

namespace ModelAnalyzer

/-- Association-list lookup: Python `d[k]` / `k in d` (first binding wins;
states reachable through the embedded operations keep keys distinct). -/
def alookup {κ β : Type} [DecidableEq κ] (k : κ) : List (κ × β) → Option β
  | [] => none
  | p :: l => if p.1 = k then some p.2 else alookup k l

/-- Association-list write: Python `d[k] = v` (replace the binding in place
if the key is present, append a new binding otherwise). -/
def aset {κ β : Type} [DecidableEq κ] (k : κ) (v : β) : List (κ × β) → List (κ × β)
  | [] => [(k, v)]
  | p :: l => if p.1 = k then (k, v) :: l else p :: aset k v l

/-- One enumeration of the distinct elements of a list.  Python iterates a
`set` here; its iteration order is unspecified, so we fix an arbitrary one
(a fold from the right).  Only the set of elements matters to any claim. -/
def distincts {κ : Type} [DecidableEq κ] : List κ → List κ
  | [] => []
  | x :: xs =>
    let r := distincts xs
    if x ∈ r then r else x :: r

/-- The closed set of Record variants (src/model_analyzer/record/*.py).
Python keys the aggregator by `type(record)`; the tag embeds that runtime
type object. -/
inductive Tag
  | gpuUsedMemory
  | gpuFreeMemory
  | perfThroughput
  | perfLatency
deriving DecidableEq, Repr

/-- A measurement record: variant tag, `value()`, optional device id
(`device().device_id()`, present on device-scoped variants only) and
`timestamp()`. -/
structure Rec where
  tag : Tag
  val : ℚ
  device : Option Nat
  timestamp : ℚ
deriving DecidableEq, Repr

/-- A record-level predicate, as passed in `filter_records`' `filters`. -/
abbrev Pred := Rec → Bool

/-- The exceptions raised by the aggregator and its callees, tagged by
raise site.  All `TritonModelAnalyzerException`s are distinguished by
their message; `valueError` is Python's `max([])`, `keyError` a plain
dictionary miss. -/
inductive AggError
  | unknownType (t : Tag)
  | invalidArgument
  | arityMismatch
  | valueError
  | keyError
deriving DecidableEq, Repr

/-- `RecordAggregator`: `self._records`, a `defaultdict(list)` keyed by
record type. -/
structure RecordAggregator where
  records : List (Tag × List Rec)
deriving DecidableEq, Repr

namespace RecordAggregator

/-- `RecordAggregator()`: the empty store. -/
def emptyAgg : RecordAggregator := ⟨[]⟩

/-- A `defaultdict(list)` read, `self._records[t]`: returns the bucket and
the post-state — reading a missing key installs an empty bucket. -/
def getDefault (a : RecordAggregator) (t : Tag) : List Rec × RecordAggregator :=
  match alookup t a.records with
  | some b => (b, a)
  | none => ([], ⟨a.records ++ [(t, [])]⟩)

/-- `add_key`: replaces the entire bucket for `t` with `rs`. -/
def add_key (a : RecordAggregator) (t : Tag) (rs : List Rec) : RecordAggregator :=
  ⟨aset t rs a.records⟩

/-- `insert(record)`: `self._records[type(record)].append(record)` — a
defaultdict read followed by an in-place append.  (The `isinstance` guard
is not modelled: every `Rec` is a Record.) -/
def insert (a : RecordAggregator) (r : Rec) : RecordAggregator :=
  let p := getDefault a r.tag
  p.2.add_key r.tag (p.1 ++ [r])

/-- Inserting a batch of records in order. -/
def insertAll (a : RecordAggregator) (l : List Rec) : RecordAggregator :=
  l.foldl insert a

/-- `record_types()`: `list(self._records)` — the keys, in insertion
order. -/
def record_types (a : RecordAggregator) : List Tag :=
  a.records.map Prod.fst

/-- `get_records()`: the underlying dictionary. -/
def get_records (a : RecordAggregator) : List (Tag × List Rec) :=
  a.records

/-- `total(record_type=None)`: count of one bucket (raising for an unknown
explicit type — this uses `in`, not a defaultdict read, so it does not
mutate) or of all buckets combined. -/
def total (a : RecordAggregator) (rt : Option Tag) : Except AggError Nat :=
  match rt with
  | some t =>
    match alookup t a.records with
    | some b => .ok b.length
    | none => .error (.unknownType t)
  | none => .ok ((a.records.map (fun p => p.2.length)).sum)

/-- Python truthiness of an optional-list argument: `None` and `[]` are
both falsy. -/
def truthy {β : Type} : Option (List β) → Bool
  | none => false
  | some l => !l.isEmpty

/-- The no-argument branch of `filter_records`: `add_key` every bucket of
the source into a fresh aggregator. -/
def copyAll (a : RecordAggregator) : RecordAggregator :=
  a.records.foldl (fun acc p => acc.add_key p.1 p.2) emptyAgg

/-- The types-only branch of `filter_records`: for each requested type,
`filtered.add_key(t, self._records[t])`.  The defaultdict read never
raises `KeyError`, so the `except KeyError` handler in the source (which
would re-raise "Record type ... not found in this RecordAggregator") is
dead code and is not modelled; instead a missing type yields an empty
bucket and extends the source.  Returns (filtered, post-state of the
source). -/
def copyTypes : RecordAggregator → List Tag → RecordAggregator →
    RecordAggregator × RecordAggregator
  | a, [], acc => (acc, a)
  | a, t :: ts, acc =>
    let p := getDefault a t
    copyTypes p.2 ts (acc.add_key t p.1)

/-- The zip loop of `filter_records`: for each `(h, f)` pair, iterate
`self._records[h]` (a defaultdict read) and `insert` the records passing
`f` into the fresh aggregator. -/
def zipFilter : RecordAggregator → List (Tag × Pred) → RecordAggregator →
    RecordAggregator × RecordAggregator
  | a, [], acc => (acc, a)
  | a, hf :: rest, acc =>
    let p := getDefault a hf.1
    zipFilter p.2 rest (acc.insertAll (p.1.filter hf.2))

/-- `filter_records(record_types=None, filters=None)`: returns the result
(or the exception raised) together with the post-state of the source. -/
def filter_records (a : RecordAggregator) (rts : Option (List Tag))
    (fls : Option (List Pred)) : Except AggError RecordAggregator × RecordAggregator :=
  if !truthy rts && !truthy fls then
    (.ok (copyAll a), a)
  else if truthy rts && !truthy fls then
    let p := copyTypes a (rts.getD []) emptyAgg
    (.ok p.1, p.2)
  else if truthy fls && !truthy rts then
    (.error .invalidArgument, a)
  else if (rts.getD []).length ≠ (fls.getD []).length then
    (.error .arityMismatch, a)
  else
    let p := zipFilter a ((rts.getD []).zip (fls.getD [])) emptyAgg
    (.ok p.1, p.2)

/-- Python `max` restricted to a list of values: `max([])` raises
`ValueError`, which the embedding signals with `none`. -/
def maxRed : List ℚ → Option ℚ
  | [] => none
  | x :: xs => some (xs.foldl max x)

/-- The loop of `aggregate`: `aggregated_records[t] = reduce_func(values)`
over the requested types, with `self._records[t]` a defaultdict read. -/
def aggLoop (red : List ℚ → Option ℚ) : RecordAggregator → List Tag →
    List (Tag × ℚ) → Except AggError (List (Tag × ℚ)) × RecordAggregator
  | a, [], acc => (.ok acc, a)
  | a, t :: ts, acc =>
    let p := getDefault a t
    match red (p.1.map Rec.val) with
    | some v => aggLoop red p.2 ts (aset t v acc)
    | none => (.error .valueError, p.2)

/-- `aggregate(record_types=None, reduce_func=max)`. -/
def aggregate (a : RecordAggregator) (rts : Option (List Tag))
    (red : List ℚ → Option ℚ) : Except AggError (List (Tag × ℚ)) × RecordAggregator :=
  let ts := if truthy rts then rts.getD [] else a.record_types
  aggLoop red a ts []

/-- The loop of `groupby`: for each distinct key value, filter the source
bucket to the records with that key, aggregate them, and read the
aggregated value out of the returned dictionary. -/
def groupbyLoop {K : Type} [DecidableEq K] (t : Tag) (key : Rec → K)
    (red : List ℚ → Option ℚ) : RecordAggregator → List K → List (K × ℚ) →
    Except AggError (List (K × ℚ)) × RecordAggregator
  | a, [], acc => (.ok acc, a)
  | a, k :: ks, acc =>
    match filter_records a (some [t]) (some [fun r => decide (key r = k)]) with
    | (.error e, a') => (.error e, a')
    | (.ok f2, a') =>
      match aggregate f2 (some [t]) red with
      | (.error e, _) => (.error e, a')
      | (.ok m, _) =>
        match alookup t m with
        | some v => groupbyLoop t key red a' ks (aset k v acc)
        | none => (.error .keyError, a')

/-- `groupby(record_type, groupby_criteria, reduce_func=max)`: restrict to
one bucket via `filter_records`, enumerate the distinct key values, and
reduce each group. -/
def groupby {K : Type} [DecidableEq K] (a : RecordAggregator) (t : Tag)
    (key : Rec → K) (red : List ℚ → Option ℚ) :
    Except AggError (List (K × ℚ)) × RecordAggregator :=
  match filter_records a (some [t]) none with
  | (.error e, a1) => (.error e, a1)
  | (.ok f1, a1) =>
    let bucket := (alookup t f1.records).getD []
    groupbyLoop t key red a1 (distincts (bucket.map key)) []

/-- The bucket invariant: every record stored under tag `t` is a record of
variant `t`. -/
def WFAgg (a : RecordAggregator) : Prop :=
  ∀ p ∈ a.records, ∀ r ∈ p.2, r.tag = p.1

instance (a : RecordAggregator) : Decidable (WFAgg a) := by
  unfold WFAgg; infer_instance

/-- The bucket currently stored for `t` (empty when the type is absent). -/
def bucketOf (a : RecordAggregator) (t : Tag) : List Rec :=
  (alookup t a.records).getD []

/-- The post-state of one defaultdict read of `t`. -/
def ensureT (a : RecordAggregator) (t : Tag) : RecordAggregator :=
  (a.getDefault t).2

/-- The reduced value of a list of record values under the default `max`
reducer, defaulting the (never-reached) empty case to `0`. -/
def maxValD (l : List ℚ) : ℚ :=
  (maxRed l).getD 0

/-- The sum of `total(t)` over a list of explicit types, propagating the
first exception. -/
def sumTotals (a : RecordAggregator) : List Tag → Except AggError Nat
  | [] => .ok 0
  | t :: ts =>
    match a.total (some t), sumTotals a ts with
    | .ok n, .ok s => .ok (n + s)
    | .error e, _ => .error e
    | .ok _, .error e => .error e

end RecordAggregator

open RecordAggregator

/-- Errors escaping `Analyzer._profile`: the `TritonModelAnalyzerException`
raised when the perf_analyzer binary cannot be found (the spec's
`WorkloadInvocationError`), or an aggregator error. -/
inductive ProfileError
  | workloadInvocation
  | agg (e : AggError)
deriving DecidableEq, Repr

/-- The loop over `self.dcgm_tags` in `Analyzer._profile`:
`records_groupby_gpu[tag] = record_aggregator.groupby(tag, gpu_device_id)`,
threading the aggregator state (a `groupby` on a missing tag installs an
empty bucket).  The grouping key is the record's device id; calling
`record.device()` on a deviceless record is outside the telemetry
collaborator's contract, so the key is the raw `Option Nat` device field. -/
def gpuGroupLoop : RecordAggregator → List Tag → List (Tag × List (Option Nat × ℚ)) →
    Except AggError (List (Tag × List (Option Nat × ℚ))) × RecordAggregator
  | ra, [], acc => (.ok acc, ra)
  | ra, t :: ts, acc =>
    match ra.groupby t Rec.device maxRed with
    | (.error e, ra') => (.error e, ra')
    | (.ok m, ra') => gpuGroupLoop ra' ts (aset t m acc)

/-- `Analyzer._profile(perf_analyzer, dcgm_monitor)`.

The collaborators are modelled by their observable behavior for one cycle:
`perf` is `None` for a server-only cycle, `some (.error ())` for a
perf_analyzer whose `run` raises `FileNotFoundError`, and `some (.ok rs)`
for a successful run returning records `rs`; `dcgmRecords` is what
`dcgm_monitor.stop_recording_metrics()` returns.  The second component of
the result counts the calls to `stop_recording_metrics` made during the
cycle.  Faithful to the source, the `FileNotFoundError` branch re-raises
*before* the monitor is stopped, so that exit path performs zero stops. -/
def profileRun (perf : Option (Except Unit (List Rec))) (dcgmTags : List Tag)
    (dcgmRecords : List Rec) :
    Except ProfileError
      (List (Tag × List (Option Nat × ℚ)) × List (Tag × ℚ)) × Nat :=
  match perf with
  | some (.error _) => (.error .workloadInvocation, 0)
  | _ =>
    let perfRecords := match perf with
      | some (.ok rs) => rs
      | _ => []
    let ra := emptyAgg.insertAll dcgmRecords
    match gpuGroupLoop ra dcgmTags [] with
    | (.error e, _) => (.error (.agg e), 1)
    | (.ok gpuMap, _) =>
      let pra := emptyAgg.insertAll perfRecords
      match pra.aggregate none maxRed with
      | (.error e, _) => (.error (.agg e), 1)
      | (.ok runMap, _) => (.ok (gpuMap, runMap), 1)

/-- `PerfAnalyzerConfig`: the three per-instance dictionaries.  The stored
values (Python: any object, `None` when unset) are `Option α`. -/
structure PerfAnalyzerConfig (α : Type) where
  args : List (String × Option α)
  options : List (String × Option α)
  verbose : List (String × Option α)
deriving DecidableEq

namespace PerfAnalyzerConfig

/-- The `self._args` keys as initialized by `__init__`. -/
def initArgs (α : Type) : List (String × Option α) :=
  [("async", none), ("sync", none), ("measurement-interval", none),
   ("concurrency-range", none), ("request-rate-range", none),
   ("request-distribution", none), ("request-intervals", none),
   ("binary-search", none), ("num-of-sequence", none),
   ("latency-threshold", none), ("max-threads", none),
   ("stability-percentage", none), ("max-trials", none),
   ("percentile", none), ("input-data", none), ("shared-memory", none),
   ("output-shared-memory-size", none), ("shape", none),
   ("sequence-length", none), ("string-length", none), ("string-data", none)]

/-- The `self._options` keys as initialized by `__init__`. -/
def initOptions (α : Type) : List (String × Option α) :=
  [("-m", none), ("-x", none), ("-b", none), ("-u", none), ("-i", none),
   ("-f", none), ("-H", none)]

/-- The `self._verbose` keys as initialized by `__init__`. -/
def initVerbose (α : Type) : List (String × Option α) :=
  [("-v", none), ("-v -v", none)]

/-- `self._input_to_options`. -/
def inputToOptions : List (String × String) :=
  [("model-name", "-m"), ("model-version", "-x"), ("batch-size", "-b"),
   ("url", "-u"), ("protocol", "-i"), ("latency-report-file", "-f"),
   ("streaming", "-H")]

/-- `self._input_to_verbose`. -/
def inputToVerbose : List (String × String) :=
  [("verbose", "-v"), ("extra-verbose", "-v -v")]

/-- `PerfAnalyzerConfig()`. -/
def init (α : Type) : PerfAnalyzerConfig α :=
  ⟨initArgs α, initOptions α, initVerbose α⟩

/-- Errors raised by `__getitem__`/`__setitem__`: the key-not-found
`TritonModelAnalyzerException`s, and a plain dictionary `KeyError` (only
possible on malformed states whose dictionaries lost an expected key). -/
inductive CfgError
  | notFound
  | notSupported
  | keyError
deriving DecidableEq, Repr

/-- `__getitem__`. -/
def getitem {α : Type} (c : PerfAnalyzerConfig α) (k : String) :
    Except CfgError (Option α) :=
  match alookup k c.args with
  | some v => .ok v
  | none =>
    match alookup k inputToOptions with
    | some o =>
      match alookup o c.options with
      | some v => .ok v
      | none => .error .keyError
    | none =>
      match alookup k inputToVerbose with
      | some o =>
        match alookup o c.verbose with
        | some v => .ok v
        | none => .error .keyError
      | none => .error .notFound

/-- `__setitem__`. -/
def setitem {α : Type} (c : PerfAnalyzerConfig α) (k : String) (v : α) :
    Except CfgError (PerfAnalyzerConfig α) :=
  match alookup k c.args with
  | some _ => .ok { c with args := aset k (some v) c.args }
  | none =>
    match alookup k inputToOptions with
    | some o => .ok { c with options := aset o (some v) c.options }
    | none =>
      match alookup k inputToVerbose with
      | some o => .ok { c with verbose := aset o (some v) c.verbose }
      | none => .error .notSupported

/-- A key is recognized when one of the three membership tests taken by
`__getitem__`/`__setitem__` succeeds on a freshly initialized config. -/
def recognizedKey (k : String) : Bool :=
  (alookup k (initArgs Unit)).isSome || (alookup k inputToOptions).isSome ||
    (alookup k inputToVerbose).isSome

/-- A config state is well-formed when its three dictionaries still have
exactly the keys `__init__` installed (in order); every state reachable
from `init` through `setitem` is. -/
def WFCfg {α : Type} (c : PerfAnalyzerConfig α) : Prop :=
  c.args.map Prod.fst = (initArgs α).map Prod.fst ∧
  c.options.map Prod.fst = (initOptions α).map Prod.fst ∧
  c.verbose.map Prod.fst = (initVerbose α).map Prod.fst

end PerfAnalyzerConfig

/-! ### Association-list and reducer lemmas -/

theorem alookup_mem {κ β : Type} [DecidableEq κ] {k : κ} {v : β} :
    ∀ {l : List (κ × β)}, alookup k l = some v → (k, v) ∈ l := by
  intro l
  induction l with
  | nil => intro h; simp [alookup] at h
  | cons p l ih =>
    intro h
    rcases p with ⟨k1, v1⟩
    rw [alookup] at h
    by_cases hk : k1 = k
    · simp only [hk, if_pos] at h
      cases h
      subst hk
      exact List.mem_cons_self _ _
    · simp only [if_neg hk] at h
      exact List.mem_cons_of_mem _ (ih h)

theorem alookup_eq_none {κ β : Type} [DecidableEq κ] {k : κ} :
    ∀ {l : List (κ × β)}, alookup k l = none ↔ k ∉ l.map Prod.fst := by
  intro l
  induction l with
  | nil => simp [alookup]
  | cons p l ih =>
    rw [alookup]
    by_cases hk : p.1 = k
    · simp [hk]
    · rw [if_neg hk, ih]
      simp only [List.map_cons, List.mem_cons, not_or]
      constructor
      · intro h
        exact ⟨fun h1 => hk h1.symm, h⟩
      · intro h
        exact h.2

theorem alookup_isSome {κ β : Type} [DecidableEq κ] {k : κ} {l : List (κ × β)} :
    (alookup k l).isSome = true ↔ k ∈ l.map Prod.fst := by
  rcases h : alookup k l with _ | v
  · simpa [h] using alookup_eq_none.mp h
  · simp only [Option.isSome_some, true_iff]
    by_contra hmem
    rw [alookup_eq_none.mpr hmem] at h
    cases h

theorem alookup_append_left {κ β : Type} [DecidableEq κ] {k : κ} {v : β} :
    ∀ {l l' : List (κ × β)}, alookup k l = some v → alookup k (l ++ l') = some v := by
  intro l l'
  induction l with
  | nil => intro h; simp [alookup] at h
  | cons p l ih =>
    intro h
    rw [alookup] at h
    rw [List.cons_append, alookup]
    by_cases hk : p.1 = k
    · simpa [hk] using h
    · rw [if_neg hk] at h ⊢
      exact ih h

theorem alookup_append_right {κ β : Type} [DecidableEq κ] {k : κ} :
    ∀ {l l' : List (κ × β)}, alookup k l = none → alookup k (l ++ l') = alookup k l' := by
  intro l l'
  induction l with
  | nil => intro _; simp
  | cons p l ih =>
    intro h
    rw [alookup] at h
    rw [List.cons_append, alookup]
    by_cases hk : p.1 = k
    · simp [hk] at h
    · rw [if_neg hk] at h ⊢
      exact ih h

theorem alookup_append_cases {κ β : Type} [DecidableEq κ] {k : κ} {v : β}
    {l l' : List (κ × β)} (h : alookup k (l ++ l') = some v) :
    alookup k l = some v ∨ alookup k l' = some v := by
  rcases hl : alookup k l with _ | w
  · right
    rwa [alookup_append_right hl] at h
  · left
    rw [alookup_append_left hl] at h
    exact h

theorem alookup_aset_self {κ β : Type} [DecidableEq κ] {k : κ} {v : β} :
    ∀ {l : List (κ × β)}, alookup k (aset k v l) = some v := by
  intro l
  induction l with
  | nil => simp [aset, alookup]
  | cons p l ih =>
    rw [aset]
    by_cases hk : p.1 = k
    · simp [hk, alookup]
    · rw [if_neg hk, alookup, if_neg hk]
      exact ih

theorem aset_append {κ β : Type} [DecidableEq κ] {k : κ} {v : β} :
    ∀ {l : List (κ × β)}, k ∉ l.map Prod.fst → aset k v l = l ++ [(k, v)] := by
  intro l
  induction l with
  | nil => intro _; simp [aset]
  | cons p l ih =>
    intro h
    simp only [List.map_cons, List.mem_cons] at h
    push_neg at h
    rw [aset, if_neg (fun hp => h.1 hp.symm), List.cons_append, ih h.2]

theorem aset_keys_of_mem {κ β : Type} [DecidableEq κ] {k : κ} {v : β} :
    ∀ {l : List (κ × β)}, k ∈ l.map Prod.fst →
      (aset k v l).map Prod.fst = l.map Prod.fst := by
  intro l
  induction l with
  | nil => intro h; simp at h
  | cons p l ih =>
    intro h
    rw [aset]
    by_cases hk : p.1 = k
    · simp [hk]
    · simp only [List.map_cons, List.mem_cons] at h
      rcases h with h | h
      · exact absurd h.symm hk
      · rw [if_neg hk]
        simp [ih h]

theorem mem_aset {κ β : Type} [DecidableEq κ] {k : κ} {v : β} {q : κ × β} :
    ∀ {l : List (κ × β)}, q ∈ aset k v l → q = (k, v) ∨ q ∈ l := by
  intro l
  induction l with
  | nil => intro h; simp [aset] at h; exact Or.inl h
  | cons p l ih =>
    intro h
    rw [aset] at h
    by_cases hk : p.1 = k
    · rw [if_pos hk] at h
      rcases List.mem_cons.mp h with h | h
      · exact Or.inl h
      · exact Or.inr (List.mem_cons_of_mem _ h)
    · rw [if_neg hk] at h
      rcases List.mem_cons.mp h with h | h
      · exact Or.inr (h ▸ List.mem_cons_self _ _)
      · rcases ih h with h | h
        · exact Or.inl h
        · exact Or.inr (List.mem_cons_of_mem _ h)

theorem mem_distincts {κ : Type} [DecidableEq κ] {x : κ} :
    ∀ {l : List κ}, x ∈ distincts l ↔ x ∈ l := by
  intro l
  induction l with
  | nil => simp [distincts]
  | cons y l ih =>
    rw [distincts]
    by_cases hy : y ∈ distincts l
    · rw [if_pos hy, ih, List.mem_cons]
      constructor
      · exact Or.inr
      · rintro (rfl | h)
        · exact ih.mp hy
        · exact h
    · simp [if_neg hy, ih]

theorem nodup_distincts {κ : Type} [DecidableEq κ] :
    ∀ {l : List κ}, (distincts l).Nodup := by
  intro l
  induction l with
  | nil => simp [distincts]
  | cons y l ih =>
    rw [distincts]
    by_cases hy : y ∈ distincts l
    · simpa [if_pos hy] using ih
    · simpa [if_neg hy] using ⟨hy, ih⟩

theorem foldl_max_ge : ∀ (xs : List ℚ) (x y : ℚ), y = x ∨ y ∈ xs → y ≤ xs.foldl max x := by
  intro xs
  induction xs with
  | nil =>
    rintro x y (rfl | h)
    · simp
    · simp at h
  | cons z zs ih =>
    rintro x y (rfl | h)
    · exact le_trans (le_max_left y z) (ih (max y z) _ (Or.inl rfl))
    · rcases List.mem_cons.mp h with rfl | h
      · exact le_trans (le_max_right x y) (ih (max x y) _ (Or.inl rfl))
      · exact ih (max x z) _ (Or.inr h)

theorem foldl_max_mem : ∀ (xs : List ℚ) (x : ℚ), xs.foldl max x = x ∨ xs.foldl max x ∈ xs := by
  intro xs
  induction xs with
  | nil => intro x; exact Or.inl rfl
  | cons z zs ih =>
    intro x
    rw [List.foldl_cons]
    rcases ih (max x z) with h | h
    · rw [h]
      rcases max_choice x z with hm | hm
      · exact Or.inl hm
      · rw [hm]
        exact Or.inr (List.mem_cons_self _ _)
    · exact Or.inr (List.mem_cons_of_mem _ h)

theorem maxRed_ne_nil {l : List ℚ} (h : l ≠ []) : ∃ v, maxRed l = some v := by
  cases l with
  | nil => exact absurd rfl h
  | cons x xs => exact ⟨xs.foldl max x, rfl⟩

theorem maxRed_mem {l : List ℚ} {v : ℚ} (h : maxRed l = some v) : v ∈ l := by
  cases l with
  | nil => simp [maxRed] at h
  | cons x xs =>
    rw [maxRed] at h
    injection h with h
    subst h
    rcases foldl_max_mem xs x with h | h
    · rw [h]
      exact List.mem_cons_self _ _
    · exact List.mem_cons_of_mem _ h

theorem maxRed_le {l : List ℚ} {v : ℚ} (h : maxRed l = some v) :
    ∀ x ∈ l, x ≤ v := by
  intro x hx
  cases l with
  | nil => simp at hx
  | cons z zs =>
    rw [maxRed] at h
    injection h with h
    subst h
    rcases List.mem_cons.mp hx with rfl | hx
    · exact foldl_max_ge zs x x (Or.inl rfl)
    · exact foldl_max_ge zs z x (Or.inr hx)

/-! ### Defaultdict-read lemmas -/

theorem getDefault_of_some {a : RecordAggregator} {t : Tag} {b : List Rec}
    (h : alookup t a.records = some b) : a.getDefault t = (b, a) := by
  simp [RecordAggregator.getDefault, h]

theorem getDefault_of_none {a : RecordAggregator} {t : Tag}
    (h : alookup t a.records = none) :
    a.getDefault t = ([], ⟨a.records ++ [(t, [])]⟩) := by
  simp [RecordAggregator.getDefault, h]

theorem getDefault_fst (a : RecordAggregator) (t : Tag) :
    (a.getDefault t).1 = a.bucketOf t := by
  rcases h : alookup t a.records with _ | b
  · rw [getDefault_of_none h]
    simp [RecordAggregator.bucketOf, h]
  · rw [getDefault_of_some h]
    simp [RecordAggregator.bucketOf, h]

theorem alookup_ensureT (a : RecordAggregator) (t : Tag) :
    alookup t (a.ensureT t).records = some (a.bucketOf t) := by
  rcases h : alookup t a.records with _ | b
  · rw [RecordAggregator.ensureT, getDefault_of_none h]
    rw [RecordAggregator.bucketOf, h]
    simpa using (alookup_append_right h).trans (by simp [alookup])
  · rw [RecordAggregator.ensureT, getDefault_of_some h]
    simp [RecordAggregator.bucketOf, h]

theorem ensureT_of_some {a : RecordAggregator} {t : Tag} {b : List Rec}
    (h : alookup t a.records = some b) : a.ensureT t = a := by
  rw [RecordAggregator.ensureT, getDefault_of_some h]

theorem WFAgg_bucketOf {a : RecordAggregator} (h : RecordAggregator.WFAgg a) (t : Tag) :
    ∀ r ∈ a.bucketOf t, r.tag = t := by
  intro r hr
  rcases hb : alookup t a.records with _ | b
  · rw [RecordAggregator.bucketOf, hb] at hr
    simp at hr
  · rw [RecordAggregator.bucketOf, hb] at hr
    exact h _ (alookup_mem hb) r hr

theorem WFAgg_ensureT {a : RecordAggregator} (h : RecordAggregator.WFAgg a) (t : Tag) :
    RecordAggregator.WFAgg (a.ensureT t) := by
  rcases hb : alookup t a.records with _ | b
  · rw [RecordAggregator.ensureT, getDefault_of_none hb]
    intro p hp r hr
    rcases List.mem_append.mp hp with hp | hp
    · exact h p hp r hr
    · simp only [List.mem_singleton] at hp
      subst hp
      simp at hr
  · rw [ensureT_of_some hb]
    exact h

theorem getDefault_preserves {a : RecordAggregator} {t t' : Tag} {b : List Rec}
    (h : alookup t' a.records = some b) :
    alookup t' (a.getDefault t).2.records = some b := by
  rcases ht : alookup t a.records with _ | c
  · rw [getDefault_of_none ht]
    exact alookup_append_left h
  · rw [getDefault_of_some ht]
    exact h

theorem getDefault_new_empty {a : RecordAggregator} {t t' : Tag} {b : List Rec}
    (h : alookup t' (a.getDefault t).2.records = some b) :
    alookup t' a.records = some b ∨ b = [] := by
  rcases ht : alookup t a.records with _ | c
  · rw [getDefault_of_none ht] at h
    rcases alookup_append_cases h with h | h
    · exact Or.inl h
    · right
      rw [alookup] at h
      by_cases hk : t = t'
      · simp only [hk, if_pos] at h
        injection h with h
        exact h.symm
      · simp [alookup, if_neg hk] at h
  · rw [getDefault_of_some ht] at h
    exact Or.inl h

theorem copyTypes_preserves {t' : Tag} {b : List Rec} :
    ∀ (ts : List Tag) (a acc : RecordAggregator),
      alookup t' a.records = some b →
      alookup t' (RecordAggregator.copyTypes a ts acc).2.records = some b := by
  intro ts
  induction ts with
  | nil =>
    intro a acc h
    exact h
  | cons t ts ih =>
    intro a acc h
    rw [RecordAggregator.copyTypes]
    exact ih _ _ (getDefault_preserves h)

theorem copyTypes_new_empty {t' : Tag} {b : List Rec} :
    ∀ (ts : List Tag) (a acc : RecordAggregator),
      alookup t' (RecordAggregator.copyTypes a ts acc).2.records = some b →
      alookup t' a.records = some b ∨ b = [] := by
  intro ts
  induction ts with
  | nil =>
    intro a acc h
    exact Or.inl h
  | cons t ts ih =>
    intro a acc h
    rw [RecordAggregator.copyTypes] at h
    rcases ih _ _ h with h | h
    · exact getDefault_new_empty h
    · exact Or.inr h

theorem zipFilter_preserves {t' : Tag} {b : List Rec} :
    ∀ (ps : List (Tag × Pred)) (a acc : RecordAggregator),
      alookup t' a.records = some b →
      alookup t' (RecordAggregator.zipFilter a ps acc).2.records = some b := by
  intro ps
  induction ps with
  | nil =>
    intro a acc h
    exact h
  | cons p ps ih =>
    intro a acc h
    rw [RecordAggregator.zipFilter]
    exact ih _ _ (getDefault_preserves h)

theorem zipFilter_new_empty {t' : Tag} {b : List Rec} :
    ∀ (ps : List (Tag × Pred)) (a acc : RecordAggregator),
      alookup t' (RecordAggregator.zipFilter a ps acc).2.records = some b →
      alookup t' a.records = some b ∨ b = [] := by
  intro ps
  induction ps with
  | nil =>
    intro a acc h
    exact Or.inl h
  | cons p ps ih =>
    intro a acc h
    rw [RecordAggregator.zipFilter] at h
    rcases ih _ _ h with h | h
    · exact getDefault_new_empty h
    · exact Or.inr h

/-! ### Insert lemmas -/

theorem aset_append_last {κ β : Type} [DecidableEq κ] {k : κ} {v w : β} :
    ∀ {l : List (κ × β)}, k ∉ l.map Prod.fst →
      aset k v (l ++ [(k, w)]) = l ++ [(k, v)] := by
  intro l
  induction l with
  | nil =>
    intro _
    simp [aset]
  | cons p l ih =>
    intro h
    simp only [List.map_cons, List.mem_cons, not_or] at h
    rw [List.cons_append, aset, if_neg (fun hp => h.1 hp.symm), ih h.2, List.cons_append]

theorem insert_of_some {a : RecordAggregator} {r : Rec} {b : List Rec}
    (h : alookup r.tag a.records = some b) :
    a.insert r = ⟨aset r.tag (b ++ [r]) a.records⟩ := by
  simp [RecordAggregator.insert, getDefault_of_some h, RecordAggregator.add_key]

theorem insert_of_none {a : RecordAggregator} {r : Rec}
    (h : alookup r.tag a.records = none) :
    a.insert r = ⟨a.records ++ [(r.tag, [r])]⟩ := by
  have hk : r.tag ∉ a.records.map Prod.fst := alookup_eq_none.mp h
  simp [RecordAggregator.insert, getDefault_of_none h, RecordAggregator.add_key,
    aset_append_last hk]

theorem insertAll_nil (a : RecordAggregator) : a.insertAll [] = a := rfl

theorem insertAll_cons (a : RecordAggregator) (r : Rec) (l : List Rec) :
    a.insertAll (r :: l) = (a.insert r).insertAll l := rfl

theorem mem_keys_of_alookup_some {κ β : Type} [DecidableEq κ] {k : κ} {v : β}
    {l : List (κ × β)} (h : alookup k l = some v) : k ∈ l.map Prod.fst :=
  alookup_isSome.mp (by rw [h]; rfl)

theorem record_types_insert (a : RecordAggregator) (r : Rec) :
    RecordAggregator.record_types (a.insert r) =
      if r.tag ∈ RecordAggregator.record_types a then RecordAggregator.record_types a
      else RecordAggregator.record_types a ++ [r.tag] := by
  rcases h : alookup r.tag a.records with _ | b
  · have hk : r.tag ∉ a.records.map Prod.fst := alookup_eq_none.mp h
    rw [insert_of_none h]
    simp only [RecordAggregator.record_types]
    rw [if_neg hk]
    simp
  · have hk : r.tag ∈ a.records.map Prod.fst := mem_keys_of_alookup_some h
    rw [insert_of_some h]
    simp only [RecordAggregator.record_types]
    rw [if_pos hk]
    exact aset_keys_of_mem hk

theorem nodup_record_types_insert {a : RecordAggregator} {r : Rec}
    (h : (RecordAggregator.record_types a).Nodup) :
    (RecordAggregator.record_types (a.insert r)).Nodup := by
  rw [record_types_insert]
  split_ifs with hmem
  · exact h
  · rw [List.nodup_append]
    refine ⟨h, List.nodup_singleton _, ?_⟩
    intro x hx hx1
    simp only [List.mem_singleton] at hx1
    subst hx1
    exact hmem hx

theorem WFAgg_insert {a : RecordAggregator} (h : RecordAggregator.WFAgg a) (r : Rec) :
    RecordAggregator.WFAgg (a.insert r) := by
  rcases hb : alookup r.tag a.records with _ | b
  · rw [insert_of_none hb]
    intro p hp x hx
    rcases List.mem_append.mp hp with hp | hp
    · exact h p hp x hx
    · simp only [List.mem_singleton] at hp
      subst hp
      simp only [List.mem_singleton] at hx
      subst hx
      rfl
  · rw [insert_of_some hb]
    intro p hp x hx
    rcases mem_aset hp with hp | hp
    · subst hp
      rcases List.mem_append.mp hx with hx | hx
      · exact h _ (alookup_mem hb) x hx
      · simp only [List.mem_singleton] at hx
        subst hx
        rfl
    · exact h p hp x hx

theorem WFAgg_insertAll :
    ∀ (l : List Rec) (a : RecordAggregator),
      RecordAggregator.WFAgg a → RecordAggregator.WFAgg (a.insertAll l) := by
  intro l
  induction l with
  | nil =>
    intro a h
    exact h
  | cons r l ih =>
    intro a h
    rw [insertAll_cons]
    exact ih _ (WFAgg_insert h r)

theorem nodup_record_types_insertAll :
    ∀ (l : List Rec) (a : RecordAggregator),
      (RecordAggregator.record_types a).Nodup →
      (RecordAggregator.record_types (a.insertAll l)).Nodup := by
  intro l
  induction l with
  | nil =>
    intro a h
    exact h
  | cons r l ih =>
    intro a h
    rw [insertAll_cons]
    exact ih _ (nodup_record_types_insert h)

theorem insertAll_same_tag :
    ∀ (l : List Rec) (b : List Rec) (t : Tag), (∀ r ∈ l, r.tag = t) →
      RecordAggregator.insertAll ⟨[(t, b)]⟩ l = ⟨[(t, b ++ l)]⟩ := by
  intro l
  induction l with
  | nil =>
    intro b t _
    simp [RecordAggregator.insertAll]
  | cons r l ih =>
    intro b t hl
    have hrt : r.tag = t := hl r (List.mem_cons_self _ _)
    rw [insertAll_cons]
    have hlk : alookup r.tag (⟨[(t, b)]⟩ : RecordAggregator).records = some b := by
      simp [alookup, hrt]
    rw [insert_of_some hlk]
    have hset : aset r.tag (b ++ [r]) [(t, b)] = [(t, b ++ [r])] := by
      simp [aset, hrt]
    rw [hset, ih (b ++ [r]) t (fun x hx => hl x (List.mem_cons_of_mem _ hx))]
    simp

theorem insertAll_empty_single {t : Tag} {l : List Rec} (hne : l ≠ [])
    (hl : ∀ r ∈ l, r.tag = t) :
    RecordAggregator.emptyAgg.insertAll l = ⟨[(t, l)]⟩ := by
  cases l with
  | nil => exact absurd rfl hne
  | cons r rest =>
    have hrt : r.tag = t := hl r (List.mem_cons_self _ _)
    rw [insertAll_cons]
    have h0 : alookup r.tag (RecordAggregator.emptyAgg).records = none := rfl
    rw [insert_of_none h0]
    have hrec : (⟨RecordAggregator.emptyAgg.records ++ [(r.tag, [r])]⟩ : RecordAggregator) =
        ⟨[(t, [r])]⟩ := by
      simp [RecordAggregator.emptyAgg, hrt]
    rw [hrec, insertAll_same_tag rest [r] t (fun x hx => hl x (List.mem_cons_of_mem _ hx))]
    simp

/-! ### Totals -/

theorem total_cons_ne {t : Tag} {b : List Rec} {rs : List (Tag × List Rec)} {u : Tag}
    (h : ¬t = u) :
    RecordAggregator.total ⟨(t, b) :: rs⟩ (some u) = RecordAggregator.total ⟨rs⟩ (some u) := by
  simp [RecordAggregator.total, alookup, if_neg h]

theorem sumTotals_cons_skip {t : Tag} {b : List Rec} {rs : List (Tag × List Rec)} :
    ∀ {ts : List Tag}, t ∉ ts →
      RecordAggregator.sumTotals ⟨(t, b) :: rs⟩ ts = RecordAggregator.sumTotals ⟨rs⟩ ts := by
  intro ts
  induction ts with
  | nil =>
    intro _
    rfl
  | cons u ts ih =>
    intro h
    simp only [List.mem_cons, not_or] at h
    rw [RecordAggregator.sumTotals, RecordAggregator.sumTotals, total_cons_ne h.1, ih h.2]

theorem sumTotals_self :
    ∀ (rs : List (Tag × List Rec)), (rs.map Prod.fst).Nodup →
      RecordAggregator.sumTotals ⟨rs⟩ (rs.map Prod.fst) =
        .ok ((rs.map fun p => p.2.length).sum) := by
  intro rs
  induction rs with
  | nil =>
    intro _
    rfl
  | cons p rs ih =>
    intro hnd
    rcases p with ⟨t, b⟩
    simp only [List.map_cons, List.nodup_cons] at hnd
    rw [List.map_cons, RecordAggregator.sumTotals]
    have h1 : RecordAggregator.total ⟨(t, b) :: rs⟩ (some t) = .ok b.length := by
      simp [RecordAggregator.total, alookup]
    rw [h1, sumTotals_cons_skip hnd.1, ih hnd.2]
    simp

/-! ### Filter, aggregate and groupby computation lemmas -/

theorem filter_records_types_only_single (a : RecordAggregator) (t : Tag) :
    a.filter_records (some [t]) none = (.ok ⟨[(t, a.bucketOf t)]⟩, a.ensureT t) := by
  simp [RecordAggregator.filter_records, RecordAggregator.truthy, RecordAggregator.copyTypes,
    RecordAggregator.add_key, RecordAggregator.emptyAgg, aset, RecordAggregator.ensureT,
    getDefault_fst]

theorem filter_records_single_pred (a : RecordAggregator) {t : Tag} {b : List Rec} (f : Pred)
    (hb : alookup t a.records = some b) :
    a.filter_records (some [t]) (some [f]) =
      (.ok (RecordAggregator.emptyAgg.insertAll (b.filter f)), a) := by
  simp [RecordAggregator.filter_records, RecordAggregator.truthy, RecordAggregator.zipFilter,
    getDefault_of_some hb]

theorem aggregate_single {t : Tag} {fl : List Rec} {v : ℚ}
    (h : maxRed (fl.map Rec.val) = some v) :
    RecordAggregator.aggregate ⟨[(t, fl)]⟩ (some [t]) maxRed =
      (.ok [(t, v)], ⟨[(t, fl)]⟩) := by
  have hlk : alookup t ((⟨[(t, fl)]⟩ : RecordAggregator)).records = some fl := by
    simp [alookup]
  simp [RecordAggregator.aggregate, RecordAggregator.truthy, RecordAggregator.aggLoop,
    getDefault_of_some hlk, h, aset]

theorem groupbyLoop_eq {K : Type} [DecidableEq K] {t : Tag} (key : Rec → K)
    (a1 : RecordAggregator) (bucket : List Rec)
    (hb : alookup t a1.records = some bucket)
    (hWFb : ∀ r ∈ bucket, r.tag = t) :
    ∀ (ks : List K) (acc : List (K × ℚ)),
      (∀ k ∈ ks, ∃ r ∈ bucket, key r = k) →
      (∀ k ∈ ks, k ∉ acc.map Prod.fst) →
      ks.Nodup →
      RecordAggregator.groupbyLoop t key maxRed a1 ks acc =
        (.ok (acc ++ ks.map fun k =>
          (k, RecordAggregator.maxValD
            ((bucket.filter fun r => decide (key r = k)).map Rec.val))), a1) := by
  intro ks
  induction ks with
  | nil =>
    intro acc _ _ _
    simp [RecordAggregator.groupbyLoop]
  | cons k ks ih =>
    intro acc hks hfresh hnd
    obtain ⟨r, hr, hkr⟩ := hks k (List.mem_cons_self _ _)
    have hrfl : r ∈ bucket.filter (fun x => decide (key x = k)) :=
      List.mem_filter.mpr ⟨hr, by simp [hkr]⟩
    have hflne : bucket.filter (fun x => decide (key x = k)) ≠ [] := by
      intro he
      rw [he] at hrfl
      exact absurd hrfl (List.not_mem_nil r)
    have hfltag : ∀ x ∈ bucket.filter (fun x => decide (key x = k)), x.tag = t :=
      fun x hx => hWFb x (List.mem_filter.mp hx).1
    have hins : RecordAggregator.emptyAgg.insertAll
        (bucket.filter (fun x => decide (key x = k))) =
        ⟨[(t, bucket.filter (fun x => decide (key x = k)))]⟩ :=
      insertAll_empty_single hflne hfltag
    have hmapne : (bucket.filter (fun x => decide (key x = k))).map Rec.val ≠ [] := by
      intro he
      exact hflne (List.map_eq_nil_iff.mp he)
    obtain ⟨v, hv⟩ := maxRed_ne_nil hmapne
    rw [RecordAggregator.groupbyLoop,
      filter_records_single_pred a1 (fun x => decide (key x = k)) hb]
    dsimp only
    rw [hins, aggregate_single hv]
    dsimp only
    rw [alookup]
    dsimp only
    rw [if_pos rfl]
    dsimp only
    have hfreshk : k ∉ acc.map Prod.fst := hfresh k (List.mem_cons_self _ _)
    have hndk : k ∉ ks := (List.nodup_cons.mp hnd).1
    rw [aset_append hfreshk]
    rw [ih (acc ++ [(k, v)])
      (fun k' hk' => hks k' (List.mem_cons_of_mem _ hk'))
      (by
        intro k' hk'
        rw [List.map_append]
        simp only [List.map_cons, List.map_nil, List.mem_append, List.mem_singleton, not_or]
        exact ⟨hfresh k' (List.mem_cons_of_mem _ hk'),
          fun he => hndk (he ▸ hk')⟩)
      (List.nodup_cons.mp hnd).2]
    simp [RecordAggregator.maxValD, hv, List.append_assoc]

theorem groupby_eq {K : Type} [DecidableEq K] (a : RecordAggregator) (t : Tag) (key : Rec → K)
    (hWFb : ∀ r ∈ a.bucketOf t, r.tag = t) :
    a.groupby t key maxRed =
      (.ok ((distincts ((a.bucketOf t).map key)).map fun k =>
        (k, RecordAggregator.maxValD
          (((a.bucketOf t).filter fun r => decide (key r = k)).map Rec.val))),
       a.ensureT t) := by
  rw [RecordAggregator.groupby, filter_records_types_only_single]
  dsimp only
  rw [alookup]
  dsimp only
  rw [if_pos rfl]
  dsimp only [Option.getD_some]
  exact groupbyLoop_eq key (a.ensureT t) (a.bucketOf t) (alookup_ensureT a t) hWFb
    (distincts ((a.bucketOf t).map key)) []
    (fun k hk => by
      obtain ⟨r, hr, hkr⟩ := List.mem_map.mp (mem_distincts.mp hk)
      exact ⟨r, hr, hkr⟩)
    (by simp)
    nodup_distincts

theorem map_fst_mk {κ β : Type} (f : κ → β) :
    ∀ (l : List κ), (l.map fun k => (k, f k)).map Prod.fst = l := by
  intro l
  induction l with
  | nil => rfl
  | cons x xs ih => simp [ih]

/-! ### Concrete records used by witnesses and counterexamples -/

/-- A run-scoped `PerfThroughput` record with the given value. -/
def perfRec (v : ℚ) : Rec := ⟨Tag.perfThroughput, v, none, 0⟩

/-- A device-scoped `GPUUsedMemory` record for device `d` with the given
value. -/
def gpuRec (d : Nat) (v : ℚ) : Rec := ⟨Tag.gpuUsedMemory, v, some d, 0⟩

/-! ### The claims -/

/-- The C5 example bucket: device 0 with values [10, 30, 20], device 1
with value [5]. -/
def deviceExampleBucket : List Rec :=
  [gpuRec 0 10, gpuRec 0 30, gpuRec 0 20, gpuRec 1 5]

/-- The C5 example aggregator, built by inserting the example bucket. -/
def deviceExample : RecordAggregator :=
  RecordAggregator.emptyAgg.insertAll deviceExampleBucket

/-- The C6 example aggregator: run-scoped throughput records with values
[100, 150, 120]. -/
def throughputExample : RecordAggregator :=
  RecordAggregator.emptyAgg.insertAll [perfRec 100, perfRec 150, perfRec 120]

/-- C1: the claim says a binary-not-found failure of the workload still
stops and releases the telemetry sampler exactly once before the failure
propagates.  The code contradicts it: in `Analyzer._profile` the
`FileNotFoundError` handler re-raises `TritonModelAnalyzerException`
*before* `dcgm_monitor.stop_recording_metrics()` is reached, so on this
exit path the failure propagates as the workload-invocation error while
the sampler is stopped zero times, not once. -/
theorem profile_workload_failure_leaves_sampler_running
    (tags : List Tag) (recs : List Rec) :
    profileRun (some (.error ())) tags recs = (.error .workloadInvocation, 0) := rfl

/-- C2: the claim says `filter_records` with `recordTypes` only fails with
`UnknownTypeError` when a requested tag was never inserted.  The code
contradicts it: `_records` is a `defaultdict(list)`, so the lookup of a
missing type never raises `KeyError`; here, on an aggregator holding only
a `PerfThroughput` record, requesting `GPUUsedMemory` returns `ok` with an
empty bucket, and silently installs an empty `GPUUsedMemory` bucket in the
source.  The `except KeyError` branch of the source that would raise the
not-found error is dead code. -/
theorem filter_records_missing_type_returns_ok :
    (RecordAggregator.emptyAgg.insertAll [perfRec 100]).filter_records
        (some [Tag.gpuUsedMemory]) none =
      (.ok ⟨[(Tag.gpuUsedMemory, [])]⟩,
       ⟨[(Tag.perfThroughput, [perfRec 100]), (Tag.gpuUsedMemory, [])]⟩) := by
  rfl

/-- C3 counterexample: filtering is claimed never to mutate the source for
any argument combination, including tags not present; but filtering an
aggregator that holds only a `PerfThroughput` record by the absent
`GPUUsedMemory` tag changes the source's set of known record types (the
defaultdict read installs an empty bucket). -/
theorem filter_records_mutates_source_on_missing_type :
    RecordAggregator.record_types
        ((RecordAggregator.emptyAgg.insertAll [perfRec 100]).filter_records
          (some [Tag.gpuUsedMemory]) none).2 ≠
      RecordAggregator.record_types (RecordAggregator.emptyAgg.insertAll [perfRec 100]) := by
  decide

/-- C3 amended: a `filter_records` call never changes the records stored
in the source — every bucket present before the call still holds exactly
the same records after it — and the only mutation it can make is to
install empty buckets for requested tags that were absent (a
`defaultdict` side effect); in particular when every referenced tag is
present the source is unchanged. -/
theorem filter_records_source_frame (a : RecordAggregator) (rts : Option (List Tag))
    (fls : Option (List Pred)) :
    (∀ t b, alookup t a.records = some b →
      alookup t (a.filter_records rts fls).2.records = some b) ∧
    (∀ t b, alookup t (a.filter_records rts fls).2.records = some b →
      alookup t a.records = some b ∨ b = []) := by
  rw [RecordAggregator.filter_records]
  split_ifs with h1 h2 h3 h4
  · exact ⟨fun t b h => h, fun t b h => Or.inl h⟩
  · exact ⟨fun t b h => copyTypes_preserves _ _ _ h,
      fun t b h => copyTypes_new_empty _ _ _ h⟩
  · exact ⟨fun t b h => h, fun t b h => Or.inl h⟩
  · exact ⟨fun t b h => h, fun t b h => Or.inl h⟩
  · exact ⟨fun t b h => zipFilter_preserves _ _ _ h,
      fun t b h => zipFilter_new_empty _ _ _ h⟩

/-- C3 amended, witnessed at a concrete input: the `PerfThroughput` bucket
of the source survives a filter call naming an absent tag. -/
theorem filter_records_source_frame_witness :
    alookup Tag.perfThroughput (RecordAggregator.emptyAgg.insertAll [perfRec 100]).records =
      some [perfRec 100] ∧
    alookup Tag.perfThroughput
        ((RecordAggregator.emptyAgg.insertAll [perfRec 100]).filter_records
          (some [Tag.gpuUsedMemory]) none).2.records = some [perfRec 100] :=
  ⟨by decide,
   (filter_records_source_frame (RecordAggregator.emptyAgg.insertAll [perfRec 100])
      (some [Tag.gpuUsedMemory]) none).1 _ _ (by decide)⟩

/-- C4 counterexample: the claim says `groupby` on an absent or empty
bucket fails with `UnknownTypeError` and returns no mapping; but on an
aggregator whose `GPUUsedMemory` bucket exists and is empty, `groupby`
returns the empty mapping. -/
theorem groupby_empty_bucket_returns_empty_map :
    (RecordAggregator.groupby (RecordAggregator.emptyAgg.add_key Tag.gpuUsedMemory [])
        Tag.gpuUsedMemory Rec.device maxRed).1 = .ok [] := by
  rfl

/-- C4 amended: `groupby` called with a record type whose bucket is absent
or empty returns the empty mapping rather than failing (when the type is
absent, the defaultdict read additionally installs an empty bucket for
it); no `UnknownTypeError` is raised. -/
theorem groupby_absent_or_empty_returns_empty {K : Type} [DecidableEq K]
    (a : RecordAggregator) (t : Tag) (key : Rec → K)
    (hb : alookup t a.records = none ∨ alookup t a.records = some []) :
    a.groupby t key maxRed = (.ok [], a.ensureT t) := by
  have hbo : a.bucketOf t = [] := by
    rcases hb with h | h <;> simp [RecordAggregator.bucketOf, h]
  have h := groupby_eq a t key (by
    rw [hbo]
    intro r hr
    simp at hr)
  rw [hbo] at h
  simpa [distincts] using h

/-- C4 amended at a concrete input: `groupby` over an explicitly installed
empty bucket yields the empty mapping. -/
theorem groupby_absent_or_empty_witness :
    (alookup Tag.gpuUsedMemory
        (RecordAggregator.emptyAgg.add_key Tag.gpuUsedMemory []).records = none ∨
     alookup Tag.gpuUsedMemory
        (RecordAggregator.emptyAgg.add_key Tag.gpuUsedMemory []).records = some []) ∧
    (RecordAggregator.emptyAgg.add_key Tag.gpuUsedMemory []).groupby Tag.gpuUsedMemory
        Rec.device maxRed =
      (.ok [],
       (RecordAggregator.emptyAgg.add_key Tag.gpuUsedMemory []).ensureT Tag.gpuUsedMemory) :=
  ⟨Or.inr rfl,
   groupby_absent_or_empty_returns_empty _ _ _ (Or.inr rfl)⟩

/-- C5: on a non-empty bucket, `groupby(tag, keyFn, max)` leaves the
aggregator unchanged and returns a mapping whose keys are exactly the
distinct key values observed in the bucket (each exactly once) and whose
value at each key is the maximum `value()` among the records of the
bucket with that key. -/
theorem groupby_reduction_correct {K : Type} [DecidableEq K] (a : RecordAggregator)
    (t : Tag) (key : Rec → K) (bucket : List Rec)
    (hWF : RecordAggregator.WFAgg a)
    (hb : alookup t a.records = some bucket) (hne : bucket ≠ []) :
    ∃ m, a.groupby t key maxRed = (.ok m, a) ∧
      (∀ k, k ∈ m.map Prod.fst ↔ k ∈ bucket.map key) ∧
      (m.map Prod.fst).Nodup ∧
      ∀ k v, (k, v) ∈ m →
        v ∈ (bucket.filter fun r => decide (key r = k)).map Rec.val ∧
        ∀ x ∈ (bucket.filter fun r => decide (key r = k)).map Rec.val, x ≤ v := by
  have hbo : a.bucketOf t = bucket := by
    simp [RecordAggregator.bucketOf, hb]
  have h := groupby_eq a t key (WFAgg_bucketOf hWF t)
  rw [hbo, ensureT_of_some hb] at h
  have hkeys : ((distincts (bucket.map key)).map fun k =>
      (k, RecordAggregator.maxValD
        ((bucket.filter fun r => decide (key r = k)).map Rec.val))).map Prod.fst =
      distincts (bucket.map key) :=
    map_fst_mk _ _
  refine ⟨_, h, ?_, ?_, ?_⟩
  · intro k
    rw [hkeys]
    exact mem_distincts
  · rw [hkeys]
    exact nodup_distincts
  · intro k v hkv
    obtain ⟨k', hk', heq⟩ := List.mem_map.mp hkv
    rw [Prod.mk.injEq] at heq
    obtain ⟨rfl, rfl⟩ := heq
    obtain ⟨r, hr, hkr⟩ := List.mem_map.mp (mem_distincts.mp hk')
    have hrfl : r ∈ bucket.filter (fun x => decide (key x = k')) :=
      List.mem_filter.mpr ⟨hr, by simp [hkr]⟩
    have hflne : (bucket.filter (fun x => decide (key x = k'))).map Rec.val ≠ [] := by
      intro he
      rw [List.map_eq_nil_iff] at he
      rw [he] at hrfl
      exact absurd hrfl (List.not_mem_nil r)
    obtain ⟨w, hw⟩ := maxRed_ne_nil hflne
    have hval : RecordAggregator.maxValD
        ((bucket.filter fun x => decide (key x = k')).map Rec.val) = w := by
      simp [RecordAggregator.maxValD, hw]
    rw [hval]
    exact ⟨maxRed_mem hw, maxRed_le hw⟩

/-- C5 at the spec's concrete example: device 0 with values [10, 30, 20]
and device 1 with value [5] reduce to the mapping [(0, 30), (1, 5)]. -/
theorem groupby_reduction_correct_witness :
    (RecordAggregator.WFAgg deviceExample ∧
     alookup Tag.gpuUsedMemory deviceExample.records = some deviceExampleBucket ∧
     deviceExampleBucket ≠ []) ∧
    (∃ m, deviceExample.groupby Tag.gpuUsedMemory (fun r => r.device.getD 0) maxRed =
        (.ok m, deviceExample) ∧
      (∀ k, k ∈ m.map Prod.fst ↔ k ∈ deviceExampleBucket.map (fun r => r.device.getD 0)) ∧
      (m.map Prod.fst).Nodup ∧
      ∀ k v, (k, v) ∈ m →
        v ∈ (deviceExampleBucket.filter fun r => decide (r.device.getD 0 = k)).map Rec.val ∧
        ∀ x ∈ (deviceExampleBucket.filter fun r => decide (r.device.getD 0 = k)).map Rec.val,
          x ≤ v) ∧
    (deviceExample.groupby Tag.gpuUsedMemory (fun r => r.device.getD 0) maxRed).1 =
      .ok [(0, 30), (1, 5)] :=
  ⟨⟨by decide, by decide, by decide⟩,
   groupby_reduction_correct deviceExample Tag.gpuUsedMemory (fun r => r.device.getD 0)
     deviceExampleBucket (by decide) (by decide) (by decide),
   by rfl⟩

/-- The computation of `aggregate`'s loop over types whose buckets are all
present and non-empty: each type maps to the reduced value of its bucket
and the aggregator is not mutated. -/
theorem aggLoop_eq (a : RecordAggregator) :
    ∀ (ts : List Tag) (acc : List (Tag × ℚ)),
      (∀ u ∈ ts, ∃ b, alookup u a.records = some b ∧ b ≠ []) →
      (∀ u ∈ ts, u ∉ acc.map Prod.fst) →
      ts.Nodup →
      RecordAggregator.aggLoop maxRed a ts acc =
        (.ok (acc ++ ts.map fun u =>
          (u, RecordAggregator.maxValD ((a.bucketOf u).map Rec.val))), a) := by
  intro ts
  induction ts with
  | nil =>
    intro acc _ _ _
    simp [RecordAggregator.aggLoop]
  | cons u ts ih =>
    intro acc hb hfresh hnd
    obtain ⟨b, hbl, hbne⟩ := hb u (List.mem_cons_self _ _)
    have hbo : a.bucketOf u = b := by
      simp [RecordAggregator.bucketOf, hbl]
    have hmapne : b.map Rec.val ≠ [] := fun he => hbne (List.map_eq_nil_iff.mp he)
    obtain ⟨v, hv⟩ := maxRed_ne_nil hmapne
    rw [RecordAggregator.aggLoop, getDefault_of_some hbl]
    dsimp only
    rw [hv]
    dsimp only
    rw [aset_append (hfresh u (List.mem_cons_self _ _))]
    rw [ih (acc ++ [(u, v)]) (fun w hw => hb w (List.mem_cons_of_mem _ hw))
      (by
        intro w hw
        rw [List.map_append]
        simp only [List.map_cons, List.map_nil, List.mem_append, List.mem_singleton, not_or]
        exact ⟨hfresh w (List.mem_cons_of_mem _ hw),
          fun he => (List.nodup_cons.mp hnd).1 (he ▸ hw)⟩)
      (List.nodup_cons.mp hnd).2]
    simp [RecordAggregator.maxValD, hbo, hv, List.append_assoc]

/-- C6: on an aggregator all of whose buckets are non-empty (with
pairwise-distinct known types, as holds for every aggregator reachable
through the public API), `aggregate()` with the default reducer succeeds,
does not mutate the aggregator, covers exactly the known tags, and maps
each tag to the maximum `value()` over that tag's bucket. -/
theorem aggregate_default_is_bucket_max (a : RecordAggregator)
    (hnd : (RecordAggregator.record_types a).Nodup)
    (hne : ∀ p ∈ a.records, p.2 ≠ []) :
    ∃ m, a.aggregate none maxRed = (.ok m, a) ∧
      m.map Prod.fst = RecordAggregator.record_types a ∧
      ∀ u v, (u, v) ∈ m → ∃ b, alookup u a.records = some b ∧
        v ∈ b.map Rec.val ∧ ∀ x ∈ b.map Rec.val, x ≤ v := by
  have hts : ∀ u ∈ RecordAggregator.record_types a,
      ∃ b, alookup u a.records = some b ∧ b ≠ [] := by
    intro u hu
    simp only [RecordAggregator.record_types] at hu
    obtain ⟨b, hb⟩ := Option.isSome_iff_exists.mp (alookup_isSome.mpr hu)
    exact ⟨b, hb, hne _ (alookup_mem hb)⟩
  have h := aggLoop_eq a (RecordAggregator.record_types a) [] hts (by simp) hnd
  have hagg : a.aggregate none maxRed =
      (.ok ((RecordAggregator.record_types a).map fun u =>
        (u, RecordAggregator.maxValD ((a.bucketOf u).map Rec.val))), a) := by
    rw [RecordAggregator.aggregate]
    simpa [RecordAggregator.truthy] using h
  refine ⟨_, hagg, map_fst_mk _ _, ?_⟩
  intro u v hkv
  obtain ⟨u', hu', heq⟩ := List.mem_map.mp hkv
  rw [Prod.mk.injEq] at heq
  obtain ⟨rfl, rfl⟩ := heq
  obtain ⟨b, hbl, hbne⟩ := hts u' hu'
  have hbo : a.bucketOf u' = b := by
    simp [RecordAggregator.bucketOf, hbl]
  have hmapne : b.map Rec.val ≠ [] := fun he => hbne (List.map_eq_nil_iff.mp he)
  obtain ⟨w, hw⟩ := maxRed_ne_nil hmapne
  have hval : RecordAggregator.maxValD ((a.bucketOf u').map Rec.val) = w := by
    simp [hbo, RecordAggregator.maxValD, hw]
  rw [hval]
  exact ⟨b, hbl, maxRed_mem hw, maxRed_le hw⟩

/-- C6 at the spec's concrete example: throughput records with values
[100, 150, 120] aggregate to the mapping [(PerfThroughput, 150)]. -/
theorem aggregate_default_is_bucket_max_witness :
    ((RecordAggregator.record_types throughputExample).Nodup ∧
     ∀ p ∈ throughputExample.records, p.2 ≠ []) ∧
    (∃ m, throughputExample.aggregate none maxRed = (.ok m, throughputExample) ∧
      m.map Prod.fst = RecordAggregator.record_types throughputExample ∧
      ∀ u v, (u, v) ∈ m → ∃ b, alookup u throughputExample.records = some b ∧
        v ∈ b.map Rec.val ∧ ∀ x ∈ b.map Rec.val, x ≤ v) ∧
    (throughputExample.aggregate none maxRed).1 = .ok [(Tag.perfThroughput, 150)] :=
  ⟨⟨by decide, by decide⟩,
   aggregate_default_is_bucket_max throughputExample (by decide) (by decide),
   by rfl⟩

/-- C7: after any sequence of `insert`s into a fresh aggregator, `total()`
with no argument equals the sum of `total(tag)` over all tags reported by
`record_types()` (each per-tag count succeeding), and every record stored
in the bucket for a tag is a record of that variant. -/
theorem insert_bucket_integrity (l : List Rec) :
    RecordAggregator.sumTotals (RecordAggregator.emptyAgg.insertAll l)
        (RecordAggregator.record_types (RecordAggregator.emptyAgg.insertAll l)) =
      (RecordAggregator.emptyAgg.insertAll l).total none ∧
    RecordAggregator.WFAgg (RecordAggregator.emptyAgg.insertAll l) := by
  have hnd : (RecordAggregator.record_types (RecordAggregator.emptyAgg.insertAll l)).Nodup :=
    nodup_record_types_insertAll l _ (by
      simp [RecordAggregator.record_types, RecordAggregator.emptyAgg])
  constructor
  · exact (sumTotals_self (RecordAggregator.emptyAgg.insertAll l).records hnd).trans rfl
  · exact WFAgg_insertAll l _ (by
      intro p hp
      simp [RecordAggregator.emptyAgg] at hp)

/-- C8: `filter_records` with predicates but no record types fails with
the invalid-argument error, and with both given but of different lengths
fails with the arity error; in both cases no filtered aggregator is
returned and the source is left unchanged. -/
theorem filter_records_arity_errors (a : RecordAggregator) (rts : Option (List Tag))
    (fls : Option (List Pred)) :
    (RecordAggregator.truthy fls = true → RecordAggregator.truthy rts = false →
      a.filter_records rts fls = (.error .invalidArgument, a)) ∧
    (∀ l1 l2, rts = some l1 → fls = some l2 →
      RecordAggregator.truthy rts = true → RecordAggregator.truthy fls = true →
      l1.length ≠ l2.length →
      a.filter_records rts fls = (.error .arityMismatch, a)) := by
  constructor
  · intro hf hr
    rw [RecordAggregator.filter_records]
    simp [hf, hr]
  · intro l1 l2 h1 h2 hr hf hlen
    subst h1
    subst h2
    rw [RecordAggregator.filter_records]
    simp [hf, hr, hlen]

/-- C8 at concrete inputs: one predicate with no types raises the
invalid-argument error; two types with one predicate raise the arity
error. -/
theorem filter_records_arity_errors_witness :
    (RecordAggregator.truthy (some ([fun _ => true] : List Pred)) = true ∧
     RecordAggregator.truthy (none : Option (List Tag)) = false ∧
     RecordAggregator.filter_records RecordAggregator.emptyAgg none (some ([fun _ => true] : List Pred)) =
       (.error .invalidArgument, RecordAggregator.emptyAgg)) ∧
    (([Tag.perfThroughput, Tag.perfLatency] : List Tag).length ≠
        ([fun _ => true] : List Pred).length ∧
     RecordAggregator.filter_records RecordAggregator.emptyAgg
        (some [Tag.perfThroughput, Tag.perfLatency]) (some ([fun _ => true] : List Pred)) =
       (.error .arityMismatch, RecordAggregator.emptyAgg)) :=
  ⟨⟨rfl, rfl,
    (filter_records_arity_errors RecordAggregator.emptyAgg none
      (some ([fun _ => true] : List Pred))).1 rfl rfl⟩,
   ⟨by decide,
    (filter_records_arity_errors RecordAggregator.emptyAgg
      (some [Tag.perfThroughput, Tag.perfLatency]) (some ([fun _ => true] : List Pred))).2
      [Tag.perfThroughput, Tag.perfLatency] [fun _ => true] rfl rfl rfl rfl (by decide)⟩⟩

/-- The loop over the configured DCGM tags in `_profile` always succeeds
on a well-formed aggregator and yields one entry per configured tag. -/
theorem gpuGroupLoop_ok :
    ∀ (ts : List Tag) (ra : RecordAggregator) (acc : List (Tag × List (Option Nat × ℚ))),
      RecordAggregator.WFAgg ra →
      (∀ u ∈ ts, u ∉ acc.map Prod.fst) →
      ts.Nodup →
      ∃ g ra', gpuGroupLoop ra ts acc = (.ok g, ra') ∧
        g.map Prod.fst = acc.map Prod.fst ++ ts := by
  intro ts
  induction ts with
  | nil =>
    intro ra acc _ _ _
    exact ⟨acc, ra, rfl, by simp⟩
  | cons u ts ih =>
    intro ra acc hWF hfresh hnd
    have hgb := groupby_eq ra u Rec.device (WFAgg_bucketOf hWF u)
    rw [gpuGroupLoop, hgb]
    dsimp only
    rw [aset_append (hfresh u (List.mem_cons_self _ _))]
    rcases ih (ra.ensureT u) (acc ++ [(u,
        (distincts ((ra.bucketOf u).map Rec.device)).map fun k =>
          (k, RecordAggregator.maxValD
            (((ra.bucketOf u).filter fun r => decide (r.device = k)).map Rec.val)))])
        (WFAgg_ensureT hWF u)
        (by
          intro w hw
          rw [List.map_append]
          simp only [List.map_cons, List.map_nil, List.mem_append, List.mem_singleton, not_or]
          exact ⟨hfresh w (List.mem_cons_of_mem _ hw),
            fun he => (List.nodup_cons.mp hnd).1 (he ▸ hw)⟩)
        (List.nodup_cons.mp hnd).2 with ⟨g, ra', hg, hkeys⟩
    refine ⟨g, ra', hg, ?_⟩
    rw [hkeys, List.map_append]
    simp

/-- C9: a server-only profiling cycle produces no run-scoped records:
`_profile` with no workload succeeds, stops the sampler exactly once, its
run-scoped aggregation mapping is empty, and it still produces one
device-scoped groupby result per configured tag from the sampler's
records.  The device-scoped hypothesis states the telemetry
collaborator's contract (its records carry a device); the distinctness of
the configured tags reflects how the Analyzer builds `dcgm_tags`. -/
theorem server_only_cycle_no_run_records (tags : List Tag) (recs : List Rec)
    (hdev : ∀ r ∈ recs, r.device.isSome) (hnd : tags.Nodup) :
    ∃ gpu, profileRun none tags recs = (.ok (gpu, []), 1) ∧
      gpu.map Prod.fst = tags := by
  have hWF : RecordAggregator.WFAgg (RecordAggregator.emptyAgg.insertAll recs) :=
    WFAgg_insertAll recs _ (by
      intro p hp
      simp [RecordAggregator.emptyAgg] at hp)
  obtain ⟨g, ra', hg, hkeys⟩ := gpuGroupLoop_ok tags (RecordAggregator.emptyAgg.insertAll recs)
    [] hWF (by simp) hnd
  have hred : profileRun none tags recs =
      (match gpuGroupLoop (RecordAggregator.emptyAgg.insertAll recs) tags [] with
        | (.error e, _) => (.error (.agg e), 1)
        | (.ok gpuMap, _) => (.ok (gpuMap, []), 1)) := rfl
  refine ⟨g, ?_, by simpa using hkeys⟩
  rw [hred, hg]

/-- C9 at a concrete input: two devices sampled during an idle window
yield one device-scoped row source and an empty run-scoped mapping. -/
theorem server_only_cycle_no_run_records_witness :
    ((∀ r ∈ [gpuRec 0 10, gpuRec 1 5], r.device.isSome) ∧
      ([Tag.gpuUsedMemory] : List Tag).Nodup) ∧
    (∃ gpu, profileRun none [Tag.gpuUsedMemory] [gpuRec 0 10, gpuRec 1 5] =
        (.ok (gpu, []), 1) ∧
      gpu.map Prod.fst = [Tag.gpuUsedMemory]) ∧
    profileRun none [Tag.gpuUsedMemory] [gpuRec 0 10, gpuRec 1 5] =
      (.ok ([(Tag.gpuUsedMemory, [(some 0, 10), (some 1, 5)])], []), 1) :=
  ⟨⟨by decide, by decide⟩,
   server_only_cycle_no_run_records _ _ (by decide) (by decide),
   by rfl⟩

/-! ### PerfAnalyzerConfig lemmas -/

theorem alookup_isSome_congr {κ β γ : Type} [DecidableEq κ] {k : κ}
    {l : List (κ × β)} {l' : List (κ × γ)} (h : l.map Prod.fst = l'.map Prod.fst) :
    (alookup k l).isSome = (alookup k l').isSome := by
  rw [Bool.eq_iff_iff, alookup_isSome, alookup_isSome, h]

/-- C10: for every well-formed config state, every recognized key (a
long-form argument, an option alias such as "model-name", or a verbose
alias) and every value, setting the key and reading it back returns
exactly the stored value; for every unrecognized key both setting and
reading fail (so no stored argument changes). -/
theorem config_set_get_roundtrip {α : Type} (c : PerfAnalyzerConfig α) (k : String) (v : α)
    (hwf : PerfAnalyzerConfig.WFCfg c) :
    (PerfAnalyzerConfig.recognizedKey k = true →
      ∃ c', c.setitem k v = .ok c' ∧ c'.getitem k = .ok (some v)) ∧
    (PerfAnalyzerConfig.recognizedKey k = false →
      c.setitem k v = .error .notSupported ∧ c.getitem k = .error .notFound) := by
  obtain ⟨hargs, hopts, hverb⟩ := hwf
  have hA : (alookup k c.args).isSome =
      (alookup k (PerfAnalyzerConfig.initArgs Unit)).isSome :=
    alookup_isSome_congr (hargs.trans rfl)
  constructor
  · intro hrec
    rcases hAl : alookup k c.args with _ | w
    · rcases hO : alookup k PerfAnalyzerConfig.inputToOptions with _ | o
      · rcases hV : alookup k PerfAnalyzerConfig.inputToVerbose with _ | o
        · exfalso
          have hinit : (alookup k (PerfAnalyzerConfig.initArgs Unit)).isSome = false := by
            rw [← hA, hAl]
            rfl
          rw [PerfAnalyzerConfig.recognizedKey, hinit, hO, hV] at hrec
          simp at hrec
        · refine ⟨{ c with verbose := aset o (some v) c.verbose }, ?_, ?_⟩
          · rw [PerfAnalyzerConfig.setitem, hAl]
            dsimp only
            rw [hO]
            dsimp only
            rw [hV]
          · rw [PerfAnalyzerConfig.getitem]
            dsimp only
            rw [hAl]
            dsimp only
            rw [hO]
            dsimp only
            rw [hV]
            dsimp only
            rw [alookup_aset_self]
      · refine ⟨{ c with options := aset o (some v) c.options }, ?_, ?_⟩
        · rw [PerfAnalyzerConfig.setitem, hAl]
          dsimp only
          rw [hO]
        · rw [PerfAnalyzerConfig.getitem]
          dsimp only
          rw [hAl]
          dsimp only
          rw [hO]
          dsimp only
          rw [alookup_aset_self]
    · refine ⟨{ c with args := aset k (some v) c.args }, ?_, ?_⟩
      · rw [PerfAnalyzerConfig.setitem, hAl]
      · rw [PerfAnalyzerConfig.getitem]
        dsimp only
        rw [alookup_aset_self]
  · intro hrec
    have hAl : alookup k c.args = none := by
      rcases hx : alookup k c.args with _ | w
      · rfl
      · exfalso
        have hsome : (alookup k (PerfAnalyzerConfig.initArgs Unit)).isSome = true := by
          rw [← hA, hx]
          rfl
        rw [PerfAnalyzerConfig.recognizedKey, hsome] at hrec
        simp at hrec
    have hO : alookup k PerfAnalyzerConfig.inputToOptions = none := by
      rcases hx : alookup k PerfAnalyzerConfig.inputToOptions with _ | w
      · rfl
      · exfalso
        rw [PerfAnalyzerConfig.recognizedKey, hx] at hrec
        simp at hrec
    have hV : alookup k PerfAnalyzerConfig.inputToVerbose = none := by
      rcases hx : alookup k PerfAnalyzerConfig.inputToVerbose with _ | w
      · rfl
      · exfalso
        rw [PerfAnalyzerConfig.recognizedKey, hx] at hrec
        simp at hrec
    constructor
    · rw [PerfAnalyzerConfig.setitem, hAl]
      dsimp only
      rw [hO]
      dsimp only
      rw [hV]
    · rw [PerfAnalyzerConfig.getitem, hAl]
      dsimp only
      rw [hO]
      dsimp only
      rw [hV]

/-- C10 at concrete inputs: "model-name" (an option alias) round-trips
through a fresh config, and the unrecognized key "bogus" is rejected by
both accessors. -/
theorem config_set_get_roundtrip_witness :
    (PerfAnalyzerConfig.WFCfg (PerfAnalyzerConfig.init String) ∧
     PerfAnalyzerConfig.recognizedKey "model-name" = true ∧
     PerfAnalyzerConfig.recognizedKey "bogus" = false) ∧
    (∃ c', (PerfAnalyzerConfig.init String).setitem "model-name" "resnet" = .ok c' ∧
      c'.getitem "model-name" = .ok (some "resnet")) ∧
    ((PerfAnalyzerConfig.init String).setitem "bogus" "x" = .error .notSupported ∧
     (PerfAnalyzerConfig.init String).getitem "bogus" = .error .notFound) :=
  ⟨⟨⟨rfl, rfl, rfl⟩, rfl, rfl⟩,
   (config_set_get_roundtrip (PerfAnalyzerConfig.init String) "model-name" "resnet"
     ⟨rfl, rfl, rfl⟩).1 rfl,
   (config_set_get_roundtrip (PerfAnalyzerConfig.init String) "bogus" "x"
     ⟨rfl, rfl, rfl⟩).2 rfl⟩

end ModelAnalyzer
